import Mathlib

/-!
Verification of the mermaid-cli batch renderer (`main.go`) against its
natural-language specification.  Go strings are modelled as `List Char`;
the program's effectful behaviour is modelled as an event trace produced
by a deterministic interpreter parameterised by an environment that
answers every external call (file reads, engine renders, writes, stats).
-/

/-- Go strings, modelled as lists of Unicode code points. -/
abbrev Str := List Char

/-- The document extension constant `mmd = ".mmd"` from `main.go`. -/
def mmdExt : Str := ".mmd".data

/-- The output extension constant `svg = ".svg"` from `main.go`. -/
def svgExt : Str := ".svg".data

/-- Go `strings.HasSuffix`: `len(s) >= len(suffix) && s[len(s)-len(suffix):] == suffix`. -/
def goHasSuffix (s suffix : Str) : Bool :=
  decide (suffix.length ≤ s.length) && (s.drop (s.length - suffix.length) == suffix)

/-- Go `strings.HasPrefix`: `len(s) >= len(pre) && s[:len(pre)] == pre`. -/
def goStartsWith (s pre : Str) : Bool :=
  decide (pre.length ≤ s.length) && (s.take pre.length == pre)

/-- Go `strings.TrimSuffix`: drop `suffix` from the end of `s` when present. -/
def goTrimSuffix (s suffix : Str) : Str :=
  if goHasSuffix s suffix then s.take (s.length - suffix.length) else s

/-- Output-path computation from `main.go`:
`svgName: strings.TrimSuffix(inputName, mmd) + svg`. -/
def svgNameOf (inputName : Str) : Str :=
  goTrimSuffix inputName mmdExt ++ svgExt

/-- The error marker prepended by `fatalf`. -/
def errMark : Str := "error: ".data

/-- First step of `fatalf`'s message normalisation: prepend the `"error: "`
marker unless the format already starts with it. -/
def goEnsureErrMark (format : Str) : Str :=
  if goStartsWith format errMark then format else errMark ++ format

/-- Second step of `fatalf`'s message normalisation: append a newline unless
the message already ends with one. -/
def goEnsureNL (f1 : Str) : Str :=
  if goHasSuffix f1 ['\n'] then f1 else f1 ++ ['\n']

/-- `fatalf`'s message normalisation: ensure the `"error: "` marker in front
and a terminating newline, exactly as in `main.go`. -/
def goFatalMessage (format : Str) : Str :=
  goEnsureNL (goEnsureErrMark format)

/-- What `fatalf` does besides formatting: it force-enables logging
(`enableLogging()`) and terminates via `log.Fatalf`, which exits with code 1. -/
structure FatalReport where
  message : Str
  loggingOn : Bool
  exitCode : Nat
deriving DecidableEq, Repr

/-- The `fatalf` helper of `main.go`: normalise the message, force logging on,
exit with status 1. -/
def goFatalf (format : Str) : FatalReport :=
  { message := goFatalMessage format, loggingOn := true, exitCode := 1 }

/-- The `usage` function of `main.go`, reached on the missing-arguments error:
it writes the usage line (`fmt.Fprintln(os.Stderr, ...)`) followed by
`flag.PrintDefaults()`'s one line per flag, does not touch the logging
configuration, and exits with status 2. -/
def goUsage : FatalReport :=
  { message :=
      "usage: mermaid-cli [-l] [-w] file.mmd [file2.mmd ...]\n  -l\tturn on logging\n  -w\twatch files and render\n".data
    loggingOn := false
    exitCode := 2 }

/-- `renderPair` from `main.go`: names of the input document and output SVG. -/
structure renderPair where
  mmdName : Str
  svgName : Str
deriving DecidableEq, Repr

/-- The `fatalf` format used for a bad input path, with its two `%s` arguments
substituted: `"got input MermaidJS document %s; expected it to end with %s"`. -/
def msgBadInput (a : Str) : Str :=
  "got input MermaidJS document ".data ++ a ++ "; expected it to end with ".data ++ mmdExt

/-- The argument-validation loop of `main`: build the `renderPair` list in
argument order, failing fatally at the first path that does not end in `.mmd`. -/
def makePairs : List Str → Except Str (List renderPair)
  | [] => .ok []
  | a :: as =>
    if goHasSuffix a mmdExt then
      match makePairs as with
      | .error m => .error m
      | .ok ps => .ok (⟨a, svgNameOf a⟩ :: ps)
    else
      .error (goFatalMessage (msgBadInput a))

/-- Modelled from the spec: the input's base name (the spec's `-outdir`
handling is documented in the repository README but absent from
`src/main.go`).  The base name is the part of the path after the last
separator. -/
def specBaseName (s : Str) : Str :=
  (s.reverse.takeWhile (fun c => c != '/')).reverse

/-- Modelled from the spec: with `-outdir=DIR`, "all outputs are written into
DIR using each input's base name with the output extension substituted". -/
def specOutdirOutput (outdir : Str) (input : Str) : Str :=
  outdir ++ '/' :: (goTrimSuffix (specBaseName input) mmdExt ++ svgExt)

/-- Lowercase hexadecimal digits, as used by Go's `encoding/json` escaper. -/
def hexDigit (n : Nat) : Char :=
  if n < 10 then Char.ofNat ('0'.toNat + n) else Char.ofNat ('a'.toNat + (n - 10))

/-- Per-character escaping of Go's `encoding/json` string encoder with HTML
escaping on (the `json.Encoder` default): quote, backslash, the three named
control characters, other control characters as `\u00XX`, the HTML-sensitive
characters as `\u00XX`, and the line separators U+2028/U+2029. -/
def escapeJSONChar (c : Char) : List Char :=
  if c = '"' then ['\\', '"']
  else if c = '\\' then ['\\', '\\']
  else if c = '\n' then ['\\', 'n']
  else if c = '\r' then ['\\', 'r']
  else if c = '\t' then ['\\', 't']
  else if c.toNat < 0x20 then
    ['\\', 'u', '0', '0', hexDigit (c.toNat / 16), hexDigit (c.toNat % 16)]
  else if c = '<' ∨ c = '>' ∨ c = '&' then
    ['\\', 'u', '0', '0', hexDigit (c.toNat / 16), hexDigit (c.toNat % 16)]
  else if c.toNat = 0x2028 ∨ c.toNat = 0x2029 then
    ['\\', 'u', '2', '0', '2', hexDigit (c.toNat % 16)]
  else [c]

/-- Go's JSON encoding of a string value: a double-quoted literal whose body
is the concatenation of the per-character escapes. -/
def goJSONEncodeString (s : Str) : Str :=
  '"' :: (s.flatMap escapeJSONChar) ++ ['"']

/-- `jsonEncodeJS` from `main.go`: `pre`, then the `json.Encoder` output for
the string (the JSON literal followed by the encoder's newline), then `post`. -/
def jsonEncodeJS (pre : Str) (s : Str) (post : Str) : Str :=
  pre ++ goJSONEncodeString s ++ '\n' :: post

/-- The call expression built by `svgRenderer.Render`:
`jsonEncodeJS("renderSVG(", mmdSource, ")")`. -/
def renderCallExpr (mmdSource : Str) : Str :=
  jsonEncodeJS "renderSVG(".data mmdSource ")".data

example : svgNameOf "dir/name.mmd".data = "dir/name.svg".data := by decide
deriving instance DecidableEq for Except

/-- Observable events of one program run. -/
inductive Ev where
  /-- `NewRenderer` returned successfully. -/
  | sessionStart : Ev
  /-- `renderer.Render` was invoked for the pair with source `mmdName`,
  with document text `src`. -/
  | renderCall (mmdName : Str) (src : Str) : Ev
  /-- `os.WriteFile` of the rendered SVG succeeded at `path`. -/
  | wroteSVG (path : Str) : Ev
  /-- `renderer.Stop()` was invoked. -/
  | sessionStop : Ev
  /-- `modTimes[path] = t` was executed in `watchAndRender`. -/
  | setEntry (path : Str) (t : Nat) : Ev
deriving DecidableEq, Repr

/-- The three fallible `chromedp.Run` steps of `NewRenderer`
(`chromedp.NewContext` itself has no error path). -/
inductive StartFailure where
  | loadLib : StartFailure
  | initMermaid : StartFailure
  | injectJS : StartFailure
deriving DecidableEq, Repr

/-- The `fatalf` format used by the `NewRenderer` step that fails. -/
def startFailFormat : StartFailure → Str
  | .loadLib => "set up headless browser: %w".data
  | .initMermaid => "initialize mermaid: %w".data
  | .injectJS => "inject additional JavaScript: %w".data

/-- The `fatalf` formats of the run-time failure paths of `main.go`. -/
def msgReadFmt : Str := "couldn't read MMD: %v".data

/-- `fatalf` format of a failed `chromedp.Run` inside `svgRenderer.Render`. -/
def msgRenderFmt : Str := "couldn't render: %v".data

/-- `fatalf` format of a failed `os.WriteFile` in `render`. -/
def msgWriteFmt : Str := "couldn't write SVG: %v".data

/-- `fatalf` format of a failed `os.Stat` in `watchAndRender`'s `modTime`. -/
def msgStatFmt : Str := "couldn't get info: %v".data

/-- The environment answering every external call the program makes.
All answers are keyed by the argument of the call, so one `Env` fixes the
outcome of every possible run. -/
structure Env where
  /-- Which `NewRenderer` step fails first, if any. -/
  startFail : Option StartFailure
  /-- `os.ReadFile` on a document path: `none` is a read error. -/
  readFile : Str → Option Str
  /-- The engine's answer to `renderSVG(src)`: `none` is an evaluate error. -/
  renderResult : Str → Option Str
  /-- Whether `os.WriteFile` at a path succeeds. -/
  writeOk : Str → Bool
  /-- `os.Stat` results during the initial watch pass: `none` is a stat error. -/
  statInit : Str → Option Nat
  /-- `os.Stat` results for each successive watch tick; after the last tick
  the interruption signal arrives. -/
  ticks : List (Str → Option Nat)

/-- Pointwise update of a modification-time map (`modTimes[k] = v`). -/
def upd (m : Str → Nat) (k : Str) (v : Nat) : Str → Nat :=
  fun x => if x = k then v else m x

/-- The `render` function of `main.go`: read the document, call
`renderer.Render`, write the SVG.  Returns the emitted events and the fatal
message, if any, that terminated the process. -/
def renderStep (env : Env) (p : renderPair) : List Ev × Option Str :=
  match env.readFile p.mmdName with
  | none => ([], some (goFatalMessage msgReadFmt))
  | some src =>
    match env.renderResult src with
    | none => ([Ev.renderCall p.mmdName src], some (goFatalMessage msgRenderFmt))
    | some _ =>
      if env.writeOk p.svgName then
        ([Ev.renderCall p.mmdName src, Ev.wroteSVG p.svgName], none)
      else
        ([Ev.renderCall p.mmdName src], some (goFatalMessage msgWriteFmt))

/-- The non-watch branch of `main`: render each pair in list order. -/
def batchRun (env : Env) : List renderPair → List Ev × Option Str
  | [] => ([], none)
  | p :: ps =>
    match renderStep env p with
    | (evs, some m) => (evs, some m)
    | (evs, none) =>
      match batchRun env ps with
      | (evs2, f2) => (evs ++ evs2, f2)

/-- The initial pass of `watchAndRender`: render every pair, then record its
modification time (`render(pair); modTimes[pair.mmdName] = modTime(...)`). -/
def initialPass (env : Env) : List renderPair → (Str → Nat) → List Ev × (Str → Nat) × Option Str
  | [], m => ([], m, none)
  | p :: ps, m =>
    match renderStep env p with
    | (evs, some msg) => (evs, m, some msg)
    | (evs, none) =>
      match env.statInit p.mmdName with
      | none => (evs, m, some (goFatalMessage msgStatFmt))
      | some t =>
        match initialPass env ps (upd m p.mmdName t) with
        | (evs2, m2, f2) => (evs ++ Ev.setEntry p.mmdName t :: evs2, m2, f2)

/-- One `ticker.C` iteration of `watchAndRender`'s loop: for each pair in
order, stat it, and if the fresh time is strictly later than the recorded one,
first update the map (`modTimes[pair.mmdName] = t`) and then render. -/
def tickPass (env : Env) (st : Str → Option Nat) : List renderPair → (Str → Nat) → List Ev × (Str → Nat) × Option Str
  | [], m => ([], m, none)
  | p :: ps, m =>
    match st p.mmdName with
    | none => ([], m, some (goFatalMessage msgStatFmt))
    | some t =>
      if m p.mmdName < t then
        match renderStep env p with
        | (evs, some msg) => (Ev.setEntry p.mmdName t :: evs, upd m p.mmdName t, some msg)
        | (evs, none) =>
          match tickPass env st ps (upd m p.mmdName t) with
          | (evs2, m2, f2) => (Ev.setEntry p.mmdName t :: evs ++ evs2, m2, f2)
      else
        tickPass env st ps m

/-- The ticks of `watchAndRender`'s loop, in order; after the last tick the
interruption signal is selected and the loop breaks. -/
def watchTicks (env : Env) : List (Str → Option Nat) → List renderPair → (Str → Nat) → List Ev × (Str → Nat) × Option Str
  | [], _, m => ([], m, none)
  | st :: rest, pairs, m =>
    match tickPass env st pairs m with
    | (evs, m', some msg) => (evs, m', some msg)
    | (evs, m', none) =>
      match watchTicks env rest pairs m' with
      | (evs2, m2, f2) => (evs ++ evs2, m2, f2)

/-- `watchAndRender`: initial pass, then the polling loop until interruption. -/
def watchRun (env : Env) (pairs : List renderPair) : List Ev × Option Str :=
  match initialPass env pairs (fun _ => 0) with
  | (evs, _, some msg) => (evs, some msg)
  | (evs, m, none) =>
    match watchTicks env env.ticks pairs m with
    | (evs2, _, f2) => (evs ++ evs2, f2)

/-- `NewRenderer`: three fallible setup steps, each fatal with its own
message; on success the session is live. -/
def newRendererEvents (env : Env) : List Ev × Option Str :=
  match env.startFail with
  | some f => ([], some (goFatalMessage (startFailFormat f)))
  | none => ([Ev.sessionStart], none)

/-- The result of one whole program run: its event trace, its exit code
(0 success, 1 `fatalf`, 2 usage), and the fatal message if any. -/
structure Outcome where
  events : List Ev
  exitCode : Nat
  fatalMsg : Option Str
deriving DecidableEq, Repr

/-- `main`: usage check, argument validation, `NewRenderer`, then either the
batch pass or `watchAndRender`, and finally `renderer.Stop()` — which is
reached only when no `fatalf` fired. -/
def runMain (env : Env) (watchFlag : Bool) (args : List Str) : Outcome :=
  if args.isEmpty then ⟨[], 2, none⟩
  else
    match makePairs args with
    | .error msg => ⟨[], 1, some msg⟩
    | .ok pairs =>
      match newRendererEvents env with
      | (evs, some msg) => ⟨evs, 1, some msg⟩
      | (evs, none) =>
        match (if watchFlag then watchRun env pairs else batchRun env pairs) with
        | (evs2, some msg) => ⟨evs ++ evs2, 1, some msg⟩
        | (evs2, none) => ⟨evs ++ evs2 ++ [Ev.sessionStop], 0, none⟩

/-- The source paths of the render calls in a trace, in order. -/
def renderedPaths (evs : List Ev) : List Str :=
  evs.filterMap (fun e =>
    match e with
    | Ev.renderCall x _ => some x
    | _ => none)

/-- The ordering property claimed of WatchState mutations: every map update
for a path is preceded, somewhere earlier in the trace, by a render call for
that same path. -/
def updatesFollowRenders (evs : List Ev) : Prop :=
  ∀ (i : Nat) p t, evs[i]? = some (Ev.setEntry p t) →
    ∃ (j : Nat) (src : Str), j < i ∧ evs[j]? = some (Ev.renderCall p src)

/-- A per-character escape fragment is harmless: it is an explicit escape
sequence (led by a backslash) or a bare character that is neither a quote nor
a control character. -/
def escCharOK (l : List Char) : Prop :=
  (∀ d ∈ l, d ≠ '"' ∧ 0x20 ≤ d.toNat) ∨ l.head? = some '\\'

section HelperLemmas

lemma goHasSuffix_iff (s suf : Str) : goHasSuffix s suf = true ↔ suf <:+ s := by
  unfold goHasSuffix
  rw [Bool.and_eq_true, decide_eq_true_eq, beq_iff_eq]
  constructor
  · rintro ⟨_, heq⟩
    exact List.suffix_iff_eq_drop.mpr heq.symm
  · intro hsuf
    exact ⟨hsuf.length_le, (List.suffix_iff_eq_drop.mp hsuf).symm⟩

lemma goHasSuffix_append (s suf : Str) : goHasSuffix (s ++ suf) suf = true :=
  (goHasSuffix_iff _ _).mpr (List.suffix_append s suf)

lemma goTrimSuffix_append (s suf : Str) : goTrimSuffix (s ++ suf) suf = s := by
  unfold goTrimSuffix
  simp only [goHasSuffix_append, if_true, List.length_append, Nat.add_sub_cancel,
    List.take_left]

lemma goStartsWith_exists {s pre : Str} (h : goStartsWith s pre = true) :
    ∃ r, s = pre ++ r := by
  unfold goStartsWith at h
  rw [Bool.and_eq_true, decide_eq_true_eq, beq_iff_eq] at h
  refine ⟨s.drop pre.length, ?_⟩
  conv_lhs => rw [← List.take_append_drop pre.length s]
  rw [h.2]

lemma goStartsWith_append_left (pre s : Str) : goStartsWith (pre ++ s) pre = true := by
  unfold goStartsWith
  rw [Bool.and_eq_true, decide_eq_true_eq, beq_iff_eq]
  exact ⟨by simp, List.take_left pre s⟩

lemma goStartsWith_append_right {s pre : Str} (t : Str) (h : goStartsWith s pre = true) :
    goStartsWith (s ++ t) pre = true := by
  obtain ⟨r, rfl⟩ := goStartsWith_exists h
  rw [List.append_assoc]
  exact goStartsWith_append_left pre (r ++ t)

lemma count_nl_of_no_interior {s : Str} (h : '\n' ∉ s.dropLast) :
    s.count '\n' = if goHasSuffix s ['\n'] then 1 else 0 := by
  by_cases hsuf : goHasSuffix s ['\n'] = true
  · rw [if_pos hsuf]
    obtain ⟨t, ht⟩ := (goHasSuffix_iff _ _).mp hsuf
    subst ht
    rw [List.dropLast_concat] at h
    simp [List.count_append, List.count_eq_zero.mpr h]
  · rw [if_neg hsuf]
    rcases eq_or_ne s [] with rfl | hne
    · decide
    · have hsplit := List.dropLast_append_getLast hne
      have hlast : s.getLast hne ≠ '\n' := by
        intro hl
        apply hsuf
        rw [goHasSuffix_iff]
        exact ⟨s.dropLast, by rw [← hl]; exact hsplit⟩
      rw [← hsplit, List.count_append, List.count_eq_zero.mpr h]
      simp [List.count_singleton', hlast]

lemma takeWhile_append_all {p : Char → Bool} {l₁ : Str} (l₂ : Str)
    (h : ∀ c ∈ l₁, p c = true) :
    (l₁ ++ l₂).takeWhile p = l₁ ++ l₂.takeWhile p := by
  induction l₁ with
  | nil => simp
  | cons a l ih =>
    simp only [List.cons_append, List.takeWhile_cons]
    rw [if_pos (h a (List.mem_cons_self a l)), ih (fun c hc => h c (List.mem_cons_of_mem a hc))]

lemma specBaseName_eq (dir t : Str) (h : ∀ c ∈ t, (c != '/') = true) :
    specBaseName (dir ++ '/' :: t) = t := by
  unfold specBaseName
  rw [List.reverse_append, List.reverse_cons, List.append_assoc,
    takeWhile_append_all _ (fun c hc => h c (List.mem_reverse.mp hc))]
  have hstop : List.takeWhile (fun c => c != '/') (['/'] ++ dir.reverse) = [] := by
    simp [List.takeWhile_cons]
  rw [hstop, List.append_nil, List.reverse_reverse]

lemma makePairs_error_of_bad (args : List Str)
    (h : ∃ a ∈ args, goHasSuffix a mmdExt = false) :
    ∃ m, makePairs args = .error m := by
  induction args with
  | nil =>
    obtain ⟨a, ha, _⟩ := h
    simp at ha
  | cons a as ih =>
    obtain ⟨b, hb, hbad⟩ := h
    rcases List.mem_cons.mp hb with rfl | hbmem
    · exact ⟨goFatalMessage (msgBadInput b), by simp [makePairs, hbad]⟩
    · by_cases hA : goHasSuffix a mmdExt = true
      · obtain ⟨m, hm⟩ := ih ⟨b, hbmem, hbad⟩
        exact ⟨m, by simp [makePairs, hA, hm]⟩
      · exact ⟨goFatalMessage (msgBadInput a), by simp [makePairs, hA]⟩

lemma renderStep_no_stop (env : Env) (p : renderPair) :
    Ev.sessionStop ∉ (renderStep env p).1 := by
  unfold renderStep
  split
  · simp
  · split
    · simp
    · split <;> simp

lemma batchRun_no_stop (env : Env) (ps : List renderPair) :
    Ev.sessionStop ∉ (batchRun env ps).1 := by
  induction ps with
  | nil => simp [batchRun]
  | cons p ps ih =>
    have hp := renderStep_no_stop env p
    unfold batchRun
    split
    next evs m heq =>
      rw [heq] at hp
      exact hp
    next evs heq =>
      rw [heq] at hp
      split
      next evs2 f2 heq2 =>
        rw [heq2] at ih
        intro hmem
        rcases List.mem_append.mp hmem with hh | hh
        · exact hp hh
        · exact ih hh

lemma initialPass_no_stop (env : Env) (ps : List renderPair) (m : Str → Nat) :
    Ev.sessionStop ∉ (initialPass env ps m).1 := by
  induction ps generalizing m with
  | nil => simp [initialPass]
  | cons p ps ih =>
    have hp := renderStep_no_stop env p
    unfold initialPass
    split
    next evs msg heq =>
      rw [heq] at hp
      exact hp
    next evs heq =>
      rw [heq] at hp
      split
      · exact hp
      next t heq2 =>
        split
        next evs2 m2 f2 heq3 =>
          have ih' := ih (upd m p.mmdName t)
          rw [heq3] at ih'
          intro hmem
          rcases List.mem_append.mp hmem with hh | hh
          · exact hp hh
          · rcases List.mem_cons.mp hh with hh2 | hh2
            · simp at hh2
            · exact ih' hh2

lemma tickPass_no_stop (env : Env) (st : Str → Option Nat) (ps : List renderPair)
    (m : Str → Nat) :
    Ev.sessionStop ∉ (tickPass env st ps m).1 := by
  induction ps generalizing m with
  | nil => simp [tickPass]
  | cons p ps ih =>
    have hp := renderStep_no_stop env p
    unfold tickPass
    split
    · simp
    next t heq =>
      split
      · split
        next evs msg heq2 =>
          rw [heq2] at hp
          intro hmem
          rcases List.mem_cons.mp hmem with hh | hh
          · simp at hh
          · exact hp hh
        next evs heq2 =>
          rw [heq2] at hp
          split
          next evs2 m2 f2 heq3 =>
            have ih' := ih (upd m p.mmdName t)
            rw [heq3] at ih'
            intro hmem
            rcases List.mem_cons.mp hmem with hh | hh
            · simp at hh
            · rcases List.mem_append.mp hh with h3 | h3
              · exact hp h3
              · exact ih' h3
      · exact ih m

lemma watchTicks_no_stop (env : Env) (ticks : List (Str → Option Nat))
    (ps : List renderPair) (m : Str → Nat) :
    Ev.sessionStop ∉ (watchTicks env ticks ps m).1 := by
  induction ticks generalizing m with
  | nil => simp [watchTicks]
  | cons st rest ih =>
    have hp := tickPass_no_stop env st ps m
    unfold watchTicks
    split
    next evs m' msg heq =>
      rw [heq] at hp
      exact hp
    next evs m' heq =>
      rw [heq] at hp
      split
      next evs2 m2 f2 heq2 =>
        have ih' := ih m'
        rw [heq2] at ih'
        intro hmem
        rcases List.mem_append.mp hmem with hh | hh
        · exact hp hh
        · exact ih' hh

lemma watchRun_no_stop (env : Env) (ps : List renderPair) :
    Ev.sessionStop ∉ (watchRun env ps).1 := by
  have hp := initialPass_no_stop env ps (fun _ => 0)
  unfold watchRun
  split
  next evs msg heq =>
    rw [heq] at hp
    exact hp
  next evs m heq =>
    rw [heq] at hp
    split
    next evs2 m2 f2 heq2 =>
      have hw := watchTicks_no_stop env env.ticks ps m
      rw [heq2] at hw
      intro hmem
      rcases List.mem_append.mp hmem with hh | hh
      · exact hp hh
      · exact hw hh

lemma upd_self (m : Str → Nat) (k : Str) (v : Nat) : upd m k v k = v := by
  simp [upd]

lemma upd_other (m : Str → Nat) {k x : Str} (v : Nat) (h : x ≠ k) : upd m k v x = m x := by
  simp [upd, h]

lemma renderStep_ok {env : Env} {content svgOf : Str → Str}
    (hr : ∀ s, env.readFile s = some (content s))
    (hv : ∀ s, env.renderResult s = some (svgOf s))
    (hw : ∀ s, env.writeOk s = true) (p : renderPair) :
    renderStep env p
      = ([Ev.renderCall p.mmdName (content p.mmdName), Ev.wroteSVG p.svgName], none) := by
  unfold renderStep
  simp [hr, hv, hw]

lemma cons_cond_iff (p : renderPair) (ps : List renderPair) (x : Str) (C : Prop)
    (h : p.mmdName = x → ¬C) :
    ((∃ q ∈ p :: ps, q.mmdName = x) ∧ C) ↔ ((∃ q ∈ ps, q.mmdName = x) ∧ C) := by
  constructor
  · rintro ⟨⟨q, hq, rfl⟩, hC⟩
    rcases List.mem_cons.mp hq with rfl | hq2
    · exact absurd hC (h rfl)
    · exact ⟨⟨q, hq2, rfl⟩, hC⟩
  · rintro ⟨⟨q, hq, rfl⟩, hC⟩
    exact ⟨⟨q, List.mem_cons_of_mem p hq, rfl⟩, hC⟩

lemma tickPass_spec {env : Env} {content svgOf : Str → Str}
    (hr : ∀ s, env.readFile s = some (content s))
    (hv : ∀ s, env.renderResult s = some (svgOf s))
    (hw : ∀ s, env.writeOk s = true)
    (st : Str → Nat) (pairs : List renderPair) (m : Str → Nat) :
    (tickPass env (fun s => some (st s)) pairs m).2.2 = none
    ∧ (∀ x : Str,
        ((∃ src, Ev.renderCall x src ∈ (tickPass env (fun s => some (st s)) pairs m).1)
          ↔ (∃ q ∈ pairs, q.mmdName = x) ∧ m x < st x)
        ∧ (tickPass env (fun s => some (st s)) pairs m).2.1 x
            = if (∃ q ∈ pairs, q.mmdName = x) ∧ m x < st x then st x else m x) := by
  induction pairs generalizing m with
  | nil =>
    refine ⟨rfl, fun x => ⟨by simp [tickPass], by simp [tickPass]⟩⟩
  | cons p ps ih =>
    have hrs := renderStep_ok hr hv hw p
    by_cases hlt : m p.mmdName < st p.mmdName
    · rcases htp : tickPass env (fun s => some (st s)) ps (upd m p.mmdName (st p.mmdName))
        with ⟨evs2, m2, f2⟩
      have key : tickPass env (fun s => some (st s)) (p :: ps) m
          = (Ev.setEntry p.mmdName (st p.mmdName)
              :: Ev.renderCall p.mmdName (content p.mmdName)
              :: Ev.wroteSVG p.svgName :: evs2, m2, f2) := by
        simp only [tickPass, hrs, if_pos hlt, htp, List.cons_append, List.nil_append]
      have ih2 := ih (upd m p.mmdName (st p.mmdName))
      rw [htp] at ih2
      obtain ⟨ihf, ihx⟩ := ih2
      have ihf2 : f2 = none := ihf
      rw [key]
      refine ⟨ihf2, fun x => ?_⟩
      by_cases hx : x = p.mmdName
      · subst hx
        constructor
        · exact iff_of_true ⟨content p.mmdName, by simp⟩
            ⟨⟨p, List.mem_cons_self p ps, rfl⟩, hlt⟩
        · have hmap : m2 p.mmdName
              = if (∃ q ∈ ps, q.mmdName = p.mmdName)
                    ∧ upd m p.mmdName (st p.mmdName) p.mmdName < st p.mmdName
                then st p.mmdName else upd m p.mmdName (st p.mmdName) p.mmdName :=
            (ihx p.mmdName).2
          rw [upd_self m p.mmdName (st p.mmdName)] at hmap
          rw [if_neg (fun hcon => absurd hcon.2 (Nat.lt_irrefl _))] at hmap
          show m2 p.mmdName = _
          rw [hmap, if_pos ⟨⟨p, List.mem_cons_self p ps, rfl⟩, hlt⟩]
      · have hupd : upd m p.mmdName (st p.mmdName) x = m x := upd_other m _ hx
        have hcond := cons_cond_iff p ps x (m x < st x) (fun he _ => hx he.symm)
        constructor
        · have hiff : (∃ src, Ev.renderCall x src ∈ evs2)
              ↔ (∃ q ∈ ps, q.mmdName = x) ∧ upd m p.mmdName (st p.mmdName) x < st x :=
            (ihx x).1
          rw [hupd] at hiff
          refine Iff.trans ?_ (Iff.trans hiff hcond.symm)
          constructor
          · rintro ⟨src, hsrc⟩
            simp only [List.mem_cons] at hsrc
            rcases hsrc with h | h | h | h
            · simp at h
            · simp [hx] at h
            · simp at h
            · exact ⟨src, h⟩
          · rintro ⟨src, hsrc⟩
            exact ⟨src, by simp [List.mem_cons, hsrc]⟩
        · have hmap : m2 x = if (∃ q ∈ ps, q.mmdName = x) ∧ upd m p.mmdName (st p.mmdName) x < st x
              then st x else upd m p.mmdName (st p.mmdName) x := (ihx x).2
          rw [hupd] at hmap
          show m2 x = _
          rw [hmap]
          simp only [hcond]
    · have key : tickPass env (fun s => some (st s)) (p :: ps) m
          = tickPass env (fun s => some (st s)) ps m := by
        simp only [tickPass, if_neg hlt]
      rw [key]
      obtain ⟨ihf, ihx⟩ := ih m
      refine ⟨ihf, fun x => ?_⟩
      have hcond := cons_cond_iff p ps x (m x < st x)
        (fun he hC => hlt (by rw [he]; exact hC))
      refine ⟨Iff.trans (ihx x).1 hcond.symm, ?_⟩
      rw [(ihx x).2]
      simp only [hcond]

lemma tickPass_cons_pos_events {env : Env} {content svgOf : Str → Str}
    (hr : ∀ s, env.readFile s = some (content s))
    (hv : ∀ s, env.renderResult s = some (svgOf s))
    (hw : ∀ s, env.writeOk s = true)
    (st : Str → Nat) (p : renderPair) (ps : List renderPair) (m : Str → Nat)
    (hlt : m p.mmdName < st p.mmdName) :
    (tickPass env (fun s => some (st s)) (p :: ps) m).1
      = Ev.setEntry p.mmdName (st p.mmdName)
        :: Ev.renderCall p.mmdName (content p.mmdName)
        :: Ev.wroteSVG p.svgName
        :: (tickPass env (fun s => some (st s)) ps (upd m p.mmdName (st p.mmdName))).1 := by
  have hrs := renderStep_ok hr hv hw p
  rcases htp : tickPass env (fun s => some (st s)) ps (upd m p.mmdName (st p.mmdName))
    with ⟨evs2, m2, f2⟩
  simp only [tickPass, hrs, if_pos hlt, htp, List.cons_append, List.nil_append]

lemma tickPass_cons_neg (env : Env) (st : Str → Nat) (p : renderPair)
    (ps : List renderPair) (m : Str → Nat) (hlt : ¬m p.mmdName < st p.mmdName) :
    tickPass env (fun s => some (st s)) (p :: ps) m
      = tickPass env (fun s => some (st s)) ps m := by
  simp only [tickPass, if_neg hlt]

lemma renderStep_no_setEntry (env : Env) (p : renderPair) (q : Str) (t : Nat) :
    Ev.setEntry q t ∉ (renderStep env p).1 := by
  unfold renderStep
  split
  · simp
  · split
    · simp
    · split <;> simp

lemma renderStep_shapes (env : Env) (p : renderPair) :
    renderStep env p = ([], some (goFatalMessage msgReadFmt))
    ∨ (∃ src, renderStep env p
        = ([Ev.renderCall p.mmdName src], some (goFatalMessage msgRenderFmt)))
    ∨ (∃ src, renderStep env p
        = ([Ev.renderCall p.mmdName src], some (goFatalMessage msgWriteFmt)))
    ∨ (∃ src, renderStep env p
        = ([Ev.renderCall p.mmdName src, Ev.wroteSVG p.svgName], none)) := by
  unfold renderStep
  split
  · exact Or.inl rfl
  next src heq =>
    split
    · exact Or.inr (Or.inl ⟨src, rfl⟩)
    next out heq2 =>
      split
      · exact Or.inr (Or.inr (Or.inr ⟨src, rfl⟩))
      · exact Or.inr (Or.inr (Or.inl ⟨src, rfl⟩))

lemma renderStep_none_shape (env : Env) (p : renderPair)
    (h : (renderStep env p).2 = none) :
    ∃ src, (renderStep env p).1 = [Ev.renderCall p.mmdName src, Ev.wroteSVG p.svgName] := by
  rcases renderStep_shapes env p with h1 | ⟨src, h1⟩ | ⟨src, h1⟩ | ⟨src, h1⟩ <;>
    rw [h1] at h ⊢
  · simp at h
  · simp at h
  · simp at h
  · exact ⟨src, rfl⟩

lemma updatesFollowRenders_of_no_setEntry {l : List Ev}
    (h : ∀ q t, Ev.setEntry q t ∉ l) : updatesFollowRenders l := by
  intro i p t hi
  exact absurd (List.getElem?_mem hi) (h p t)

lemma updatesFollowRenders_append {l₁ l₂ : List Ev}
    (h₁ : updatesFollowRenders l₁) (h₂ : updatesFollowRenders l₂) :
    updatesFollowRenders (l₁ ++ l₂) := by
  intro i p t hi
  by_cases hlen : i < l₁.length
  · rw [List.getElem?_append_left hlen] at hi
    obtain ⟨j, src, hj, hjev⟩ := h₁ i p t hi
    exact ⟨j, src, hj, by rw [List.getElem?_append_left (lt_trans hj hlen)]; exact hjev⟩
  · push_neg at hlen
    rw [List.getElem?_append_right hlen] at hi
    obtain ⟨j, src, hj, hjev⟩ := h₂ (i - l₁.length) p t hi
    refine ⟨l₁.length + j, src, by omega, ?_⟩
    rw [List.getElem?_append_right (by omega)]
    have hj2 : l₁.length + j - l₁.length = j := by omega
    rw [hj2]
    exact hjev

lemma updatesFollowRenders_block (pm sv src : Str) (t : Nat) :
    updatesFollowRenders [Ev.renderCall pm src, Ev.wroteSVG sv, Ev.setEntry pm t] := by
  intro i p t' hi
  rcases i with _ | (_ | (_ | i))
  · simp at hi
  · simp at hi
  · simp only [List.getElem?_cons_succ, List.getElem?_cons_zero, Option.some.injEq,
      Ev.setEntry.injEq] at hi
    exact ⟨0, src, by omega, by simp [hi.1]⟩
  · simp at hi

lemma initialPass_updates_follow (env : Env) (ps : List renderPair) (m0 : Str → Nat) :
    updatesFollowRenders (initialPass env ps m0).1 := by
  induction ps generalizing m0 with
  | nil =>
    intro i p t hi
    simp [initialPass] at hi
  | cons p ps ih =>
    unfold initialPass
    split
    next evs msg heq =>
      apply updatesFollowRenders_of_no_setEntry
      intro q t hq
      have hns := renderStep_no_setEntry env p q t
      rw [heq] at hns
      exact hns hq
    next evs heq =>
      split
      · apply updatesFollowRenders_of_no_setEntry
        intro q t hq
        have hns := renderStep_no_setEntry env p q t
        rw [heq] at hns
        exact hns hq
      next t heq2 =>
        split
        next evs2 m2 f2 heq3 =>
          obtain ⟨src, hshape⟩ := renderStep_none_shape env p (by rw [heq])
          rw [heq] at hshape
          subst hshape
          have hih := ih (upd m0 p.mmdName t)
          rw [heq3] at hih
          have hre : ([Ev.renderCall p.mmdName src, Ev.wroteSVG p.svgName]
                ++ Ev.setEntry p.mmdName t :: evs2)
              = [Ev.renderCall p.mmdName src, Ev.wroteSVG p.svgName, Ev.setEntry p.mmdName t]
                ++ evs2 := by
            simp
          rw [hre]
          exact updatesFollowRenders_append
            (updatesFollowRenders_block p.mmdName p.svgName src t) hih

lemma tickPass_update_then_render {env : Env} {content svgOf : Str → Str}
    (hr : ∀ s, env.readFile s = some (content s))
    (hv : ∀ s, env.renderResult s = some (svgOf s))
    (hw : ∀ s, env.writeOk s = true)
    (st : Str → Nat) (ps : List renderPair) (m : Str → Nat) :
    ∀ (i : Nat) (p : Str) (t : Nat),
      (tickPass env (fun s => some (st s)) ps m).1[i]? = some (Ev.setEntry p t) →
      ∃ src, (tickPass env (fun s => some (st s)) ps m).1[i + 1]? = some (Ev.renderCall p src) := by
  induction ps generalizing m with
  | nil =>
    intro i p t hi
    simp [tickPass] at hi
  | cons q ps ih =>
    intro i p t hi
    by_cases hlt : m q.mmdName < st q.mmdName
    · rw [tickPass_cons_pos_events hr hv hw st q ps m hlt] at hi ⊢
      rcases i with _ | (_ | (_ | i))
      · simp only [List.getElem?_cons_zero, Option.some.injEq, Ev.setEntry.injEq] at hi
        exact ⟨content q.mmdName, by simp [hi.1]⟩
      · simp at hi
      · simp at hi
      · simp only [List.getElem?_cons_succ] at hi ⊢
        exact ih (upd m q.mmdName (st q.mmdName)) i p t hi
    · rw [tickPass_cons_neg env st q ps m hlt] at hi ⊢
      exact ih m i p t hi

lemma makePairs_map_mmdName {args : List Str} {pairs : List renderPair}
    (h : makePairs args = .ok pairs) : pairs.map renderPair.mmdName = args := by
  induction args generalizing pairs with
  | nil =>
    simp only [makePairs, Except.ok.injEq] at h
    subst h
    rfl
  | cons a as ih =>
    by_cases hA : goHasSuffix a mmdExt = true
    · rcases hmk : makePairs as with m | ps2
      · rw [makePairs, if_pos hA, hmk] at h
        simp at h
      · rw [makePairs, if_pos hA, hmk] at h
        simp only [Except.ok.injEq] at h
        subst h
        simp [ih hmk]
    · rw [makePairs, if_neg hA] at h
      simp at h

lemma batchRun_ok {env : Env} {content svgOf : Str → Str}
    (hr : ∀ s, env.readFile s = some (content s))
    (hv : ∀ s, env.renderResult s = some (svgOf s))
    (hw : ∀ s, env.writeOk s = true) (ps : List renderPair) :
    (batchRun env ps).2 = none
    ∧ renderedPaths (batchRun env ps).1 = ps.map renderPair.mmdName := by
  induction ps with
  | nil => exact ⟨rfl, rfl⟩
  | cons p ps ih =>
    have hrs := renderStep_ok hr hv hw p
    rcases hb : batchRun env ps with ⟨evs2, f2⟩
    rw [hb] at ih
    have key : batchRun env (p :: ps)
        = (Ev.renderCall p.mmdName (content p.mmdName) :: Ev.wroteSVG p.svgName :: evs2, f2) := by
      simp only [batchRun, hrs, hb, List.cons_append, List.nil_append]
    rw [key]
    refine ⟨ih.1, ?_⟩
    have ih2 : renderedPaths evs2 = ps.map renderPair.mmdName := ih.2
    simp [renderedPaths, List.filterMap_cons]
    exact ih2

lemma tickPass_order {env : Env} {content svgOf : Str → Str}
    (hr : ∀ s, env.readFile s = some (content s))
    (hv : ∀ s, env.renderResult s = some (svgOf s))
    (hw : ∀ s, env.writeOk s = true)
    (st : Str → Nat) (ps : List renderPair) :
    ∀ m : Str → Nat, (ps.map renderPair.mmdName).Nodup →
      renderedPaths (tickPass env (fun s => some (st s)) ps m).1
        = (ps.filter (fun p => decide (m p.mmdName < st p.mmdName))).map renderPair.mmdName := by
  induction ps with
  | nil =>
    intro m _
    rfl
  | cons p ps ih =>
    intro m hnd
    have hnd2 : (ps.map renderPair.mmdName).Nodup := (List.nodup_cons.mp hnd).2
    have hnotin : p.mmdName ∉ ps.map renderPair.mmdName := (List.nodup_cons.mp hnd).1
    by_cases hlt : m p.mmdName < st p.mmdName
    · rw [tickPass_cons_pos_events hr hv hw st p ps m hlt]
      have hfc : ps.filter
            (fun q => decide (upd m p.mmdName (st p.mmdName) q.mmdName < st q.mmdName))
          = ps.filter (fun q => decide (m q.mmdName < st q.mmdName)) := by
        apply List.filter_congr
        intro q hq
        have hne : q.mmdName ≠ p.mmdName :=
          fun he => hnotin (he ▸ List.mem_map_of_mem renderPair.mmdName hq)
        rw [upd_other m _ hne]
      have hih := ih (upd m p.mmdName (st p.mmdName)) hnd2
      rw [hfc] at hih
      rw [List.filter_cons_of_pos (by simp [hlt]), List.map_cons]
      simp [renderedPaths, List.filterMap_cons]
      exact hih
    · rw [tickPass_cons_neg env st p ps m hlt,
        List.filter_cons_of_neg (by simp [hlt])]
      exact ih m hnd2

lemma newRenderer_cases (env : Env) :
    (∃ m, newRendererEvents env = ([], some m))
    ∨ newRendererEvents env = ([Ev.sessionStart], none) := by
  unfold newRendererEvents
  cases env.startFail with
  | none => exact Or.inr rfl
  | some f => exact Or.inl ⟨_, rfl⟩

end HelperLemmas

/-- A fully successful environment, used by the concrete witnesses. -/
def envAllOK : Env :=
  { startFail := none
    readFile := fun _ => some "graph TD".data
    renderResult := fun _ => some "<svg/>".data
    writeOk := fun _ => true
    statInit := fun _ => some 1
    ticks := [] }

/-- Claim C10: an input path that is exactly the extension `.mmd` (empty base
name), such as `".mmd"` or `"dir/.mmd"`, passes argument validation, and its
computed output path is the extension alone (`".svg"` or `"dir/.svg"`). -/
theorem c10_empty_base_name :
    makePairs [".mmd".data] = .ok [⟨".mmd".data, ".svg".data⟩]
    ∧ makePairs ["dir/.mmd".data] = .ok [⟨"dir/.mmd".data, "dir/.svg".data⟩] := by
  constructor <;> rfl

/-- Claim C4, counterexample: the generated call expression is NOT the fixed
prefix followed by the JSON string literal followed by the fixed suffix — the
stream encoder (`json.Encoder.Encode`) emits a newline after the literal, so
already at the one-character source `"a"` the two strings differ. -/
theorem c4_counterexample :
    renderCallExpr "a".data ≠
      "renderSVG(".data ++ goJSONEncodeString "a".data ++ ")".data := by
  decide

/-- Claim C4, amended: for every source text, the call expression equals the
fixed prefix `renderSVG(`, then the JSON string literal encoding the source,
then the encoder's newline, then the fixed suffix `)`; every per-character
fragment of the literal's body is either an explicit backslash-led escape or a
bare non-quote non-control character, and every quote, backslash, or control
character of the source is emitted as a backslash-led escape, never raw. -/
theorem c4_render_call_encoding (s : Str) :
    renderCallExpr s = "renderSVG(".data ++ goJSONEncodeString s ++ '\n' :: ")".data
    ∧ (∀ c : Char, escCharOK (escapeJSONChar c))
    ∧ (∀ c : Char, (c = '"' ∨ c = '\\' ∨ c.toNat < 0x20) →
        (escapeJSONChar c).head? = some '\\') := by
  refine ⟨rfl, ?_, ?_⟩
  · intro c
    unfold escCharOK escapeJSONChar
    split_ifs with h1 h2 h3 h4 h5 h6 h7 h8
    · exact Or.inr rfl
    · exact Or.inr rfl
    · exact Or.inr rfl
    · exact Or.inr rfl
    · exact Or.inr rfl
    · exact Or.inr rfl
    · exact Or.inr rfl
    · exact Or.inr rfl
    · refine Or.inl ?_
      intro d hd
      rw [List.mem_singleton] at hd
      subst hd
      exact ⟨h1, Nat.not_lt.mp h6⟩
  · intro c hc
    unfold escapeJSONChar
    split_ifs with h1 h2 h3 h4 h5 h6 h7 h8 <;> try rfl
    rcases hc with h | h | h
    · exact absurd h h1
    · exact absurd h h2
    · exact absurd h h6

/-- Claim C6, counterexample: the missing-arguments error — an argument error
of the claim's own taxonomy — does not go through `fatalf`: the empty-argument
run terminates through `usage` (exit status 2), whose report is a multi-line
message (three newlines) that does not start with the `error: ` marker and for
which logging is not force-enabled.  This refutes "exactly one line, prefixed
with an error marker, with logging force-enabled" for every fatal error. -/
theorem c6_counterexample :
    (runMain envAllOK false []).exitCode = goUsage.exitCode
    ∧ goStartsWith goUsage.message errMark = false
    ∧ goUsage.message.count '\n' = 3
    ∧ goUsage.loggingOn = false := by
  decide

/-- Claim C6, amended: every fatal error reported through `fatalf` —
wrong-extension argument errors, engine lifecycle, render, and I/O errors — is
exactly one line on the error stream, prefixed with the `error: ` marker,
newline-terminated, with logging force-enabled for that message, and the
process exits with the non-zero status 1; the missing-arguments error instead
prints a multi-line, unprefixed usage message without forcing logging and
exits with the non-zero status 2.  The hypothesis states that the formatted
`fatalf` message itself contains no interior newline, which holds for every
format string in `main.go`. -/
theorem c6_fatal_single_line (format : Str) (h : '\n' ∉ format.dropLast) :
    (goStartsWith (goFatalf format).message errMark = true
    ∧ goHasSuffix (goFatalf format).message ['\n'] = true
    ∧ (goFatalf format).message.count '\n' = 1
    ∧ (goFatalf format).loggingOn = true
    ∧ (goFatalf format).exitCode ≠ 0)
    ∧ (goStartsWith goUsage.message errMark = false
    ∧ goUsage.message.count '\n' = 3
    ∧ goUsage.loggingOn = false
    ∧ goUsage.exitCode ≠ 0) := by
  refine ⟨?_, by decide⟩
  have hstart : goStartsWith (goEnsureErrMark format) errMark = true := by
    unfold goEnsureErrMark
    by_cases hp : goStartsWith format errMark = true
    · rw [if_pos hp]; exact hp
    · rw [if_neg hp]; exact goStartsWith_append_left errMark format
  have hdl : '\n' ∉ (goEnsureErrMark format).dropLast := by
    unfold goEnsureErrMark
    by_cases hp : goStartsWith format errMark = true
    · rw [if_pos hp]; exact h
    · rw [if_neg hp]
      rcases eq_or_ne format [] with rfl | hne
      · decide
      · rw [List.dropLast_append_of_ne_nil _ hne, List.mem_append]
        rintro (hc | hc)
        · exact absurd hc (by decide)
        · exact h hc
  have hmsg : (goFatalf format).message = goEnsureNL (goEnsureErrMark format) := rfl
  rw [hmsg]
  refine ⟨?_, ?_, ?_, rfl, by simp [goFatalf]⟩
  · unfold goEnsureNL
    by_cases hs : goHasSuffix (goEnsureErrMark format) ['\n'] = true
    · rw [if_pos hs]; exact hstart
    · rw [if_neg hs]; exact goStartsWith_append_right _ hstart
  · unfold goEnsureNL
    by_cases hs : goHasSuffix (goEnsureErrMark format) ['\n'] = true
    · rw [if_pos hs]; exact hs
    · rw [if_neg hs]; exact goHasSuffix_append _ _
  · unfold goEnsureNL
    by_cases hs : goHasSuffix (goEnsureErrMark format) ['\n'] = true
    · rw [if_pos hs, count_nl_of_no_interior hdl, if_pos hs]
    · rw [if_neg hs, List.count_append, count_nl_of_no_interior hdl, if_neg hs]
      simp

/-- Witness for C6's amended statement at the concrete format `"boom"`. -/
theorem c6_fatal_single_line_witness :
    '\n' ∉ "boom".data.dropLast
    ∧ ((goStartsWith (goFatalf "boom".data).message errMark = true
        ∧ goHasSuffix (goFatalf "boom".data).message ['\n'] = true
        ∧ (goFatalf "boom".data).message.count '\n' = 1
        ∧ (goFatalf "boom".data).loggingOn = true
        ∧ (goFatalf "boom".data).exitCode ≠ 0)
      ∧ (goStartsWith goUsage.message errMark = false
        ∧ goUsage.message.count '\n' = 3
        ∧ goUsage.loggingOn = false
        ∧ goUsage.exitCode ≠ 0)) :=
  ⟨by decide, c6_fatal_single_line "boom".data (by decide)⟩

/-- Claim C5: for an input `dir/name.mmd` with no output-directory override,
the computed output path is `dir/name.svg`; with the spec's `-outdir=out`
override (modelled from the spec, the flag being absent from `src/main.go`),
the output path is `out/name.svg`. -/
theorem c5_output_path (dir name out : Str) (h : ∀ c ∈ name, c ≠ '/') :
    svgNameOf (dir ++ '/' :: (name ++ mmdExt)) = dir ++ '/' :: (name ++ svgExt)
    ∧ specOutdirOutput out (dir ++ '/' :: (name ++ mmdExt)) = out ++ '/' :: (name ++ svgExt) := by
  have hassoc : dir ++ '/' :: (name ++ mmdExt) = (dir ++ '/' :: name) ++ mmdExt := by
    simp
  constructor
  · unfold svgNameOf
    rw [hassoc, goTrimSuffix_append]
    simp
  · unfold specOutdirOutput
    rw [specBaseName_eq dir (name ++ mmdExt) ?hmem, goTrimSuffix_append]
    case hmem =>
      intro c hc
      rcases List.mem_append.mp hc with h1 | h2
      · exact bne_iff_ne.mpr (h c h1)
      · have hext : ∀ d ∈ mmdExt, (d != '/') = true := by decide
        exact hext c h2

/-- Witness for C5 at `dir = "a"`, `name = "b"`, `out = "o"`. -/
theorem c5_output_path_witness :
    (∀ c ∈ "b".data, c ≠ '/')
    ∧ (svgNameOf ("a".data ++ '/' :: ("b".data ++ mmdExt))
          = "a".data ++ '/' :: ("b".data ++ svgExt)
        ∧ specOutdirOutput "o".data ("a".data ++ '/' :: ("b".data ++ mmdExt))
          = "o".data ++ '/' :: ("b".data ++ svgExt)) :=
  ⟨by decide, c5_output_path "a".data "b".data "o".data (by decide)⟩

/-- Claim C7: if any argument does not end in `.mmd`, the run fails fatally
during validation: no render call is ever issued and the render session is
never started. -/
theorem c7_bad_extension_fatal (env : Env) (w : Bool) (args : List Str)
    (h : ∃ a ∈ args, goHasSuffix a mmdExt = false) :
    (runMain env w args).fatalMsg.isSome = true
    ∧ renderedPaths (runMain env w args).events = []
    ∧ Ev.sessionStart ∉ (runMain env w args).events := by
  obtain ⟨m, hm⟩ := makePairs_error_of_bad args h
  rcases args with _ | ⟨a, as⟩
  · obtain ⟨b, hb, _⟩ := h
    simp at hb
  · simp [runMain, hm, renderedPaths]

/-- Witness for C7 at the single argument `"x.txt"`. -/
theorem c7_bad_extension_fatal_witness :
    (∃ a ∈ ["x.txt".data], goHasSuffix a mmdExt = false)
    ∧ ((runMain envAllOK false ["x.txt".data]).fatalMsg.isSome = true
        ∧ renderedPaths (runMain envAllOK false ["x.txt".data]).events = []
        ∧ Ev.sessionStart ∉ (runMain envAllOK false ["x.txt".data]).events) :=
  ⟨⟨"x.txt".data, by decide⟩, c7_bad_extension_fatal envAllOK false ["x.txt".data]
    ⟨"x.txt".data, by decide⟩⟩

/-- Claim C9: a failure at any fallible session-setup step (loading the
rendering library into the engine, configuring it, registering the helper) is
fatal to the whole program with no partial-success state — the trace is empty,
so no render call and no live session exist — and the three failure messages
are pairwise distinct.  (`chromedp.NewContext`, the launch itself, has no
error path in the code; a launch failure surfaces at the first of these
steps.) -/
theorem c9_start_failure_fatal (env : Env) (w : Bool) (args : List Str)
    (f : StartFailure) (pairs : List renderPair)
    (hf : env.startFail = some f) (hne : args ≠ [])
    (hok : makePairs args = .ok pairs) :
    runMain env w args = ⟨[], 1, some (goFatalMessage (startFailFormat f))⟩
    ∧ Function.Injective (fun g => goFatalMessage (startFailFormat g)) := by
  constructor
  · rcases args with _ | ⟨a, as⟩
    · exact absurd rfl hne
    · simp [runMain, hok, newRendererEvents, hf]
  · intro g1 g2 hgg
    cases g1 <;> cases g2 <;> first | rfl | (exfalso; revert hgg; decide)

/-- Witness for C9 at the `initMermaid` step with argument `"a.mmd"`. -/
theorem c9_start_failure_fatal_witness :
    ({ envAllOK with startFail := some .initMermaid } : Env).startFail = some .initMermaid
    ∧ (["a.mmd".data] : List Str) ≠ []
    ∧ makePairs ["a.mmd".data] = .ok [⟨"a.mmd".data, "a.svg".data⟩]
    ∧ (runMain { envAllOK with startFail := some .initMermaid } false ["a.mmd".data]
        = ⟨[], 1, some (goFatalMessage (startFailFormat .initMermaid))⟩
      ∧ Function.Injective (fun g => goFatalMessage (startFailFormat g))) :=
  ⟨rfl, by decide, by decide,
    c9_start_failure_fatal { envAllOK with startFail := some .initMermaid } false
      ["a.mmd".data] .initMermaid [⟨"a.mmd".data, "a.svg".data⟩] rfl (by decide) (by decide)⟩

/-- Concrete witness data: stat results, initial WatchState, document
contents, engine outputs, and a one-pair input set. -/
def stW : Str → Nat := fun _ => 5

/-- Concrete witness data: the initial WatchState map. -/
def m0W : Str → Nat := fun _ => 0

/-- Concrete witness data: document contents, matching `envAllOK.readFile`. -/
def contentW : Str → Str := fun _ => "graph TD".data

/-- Concrete witness data: engine outputs, matching `envAllOK.renderResult`. -/
def svgOfW : Str → Str := fun _ => "<svg/>".data

/-- Concrete witness data: a one-pair input set. -/
def pairsW : List renderPair := [⟨"a.mmd".data, "a.svg".data⟩]

/-- Claim C2: on a watch tick, a pair is re-rendered iff its fresh
modification timestamp is strictly later than its WatchState entry, in which
case the entry is set to the new timestamp; an unchanged or backdated file is
never re-rendered and its entry is unchanged. -/
theorem c2_tick_rerender_iff (env : Env) (content svgOf : Str → Str) (st : Str → Nat)
    (pairs : List renderPair) (m : Str → Nat)
    (hr : ∀ s, env.readFile s = some (content s))
    (hv : ∀ s, env.renderResult s = some (svgOf s))
    (hw : ∀ s, env.writeOk s = true) :
    ∀ p ∈ pairs,
      ((∃ src, Ev.renderCall p.mmdName src ∈ (tickPass env (fun s => some (st s)) pairs m).1)
        ↔ m p.mmdName < st p.mmdName)
      ∧ (tickPass env (fun s => some (st s)) pairs m).2.1 p.mmdName
          = (if m p.mmdName < st p.mmdName then st p.mmdName else m p.mmdName) := by
  intro p hp
  obtain ⟨-, hx⟩ := tickPass_spec hr hv hw st pairs m
  have hmem : ∃ q ∈ pairs, q.mmdName = p.mmdName := ⟨p, hp, rfl⟩
  have hand : ((∃ q ∈ pairs, q.mmdName = p.mmdName) ∧ m p.mmdName < st p.mmdName)
      ↔ m p.mmdName < st p.mmdName := and_iff_right hmem
  refine ⟨Iff.trans (hx p.mmdName).1 hand, ?_⟩
  rw [(hx p.mmdName).2]
  simp only [hand]

/-- Witness for C2 at a one-pair input set with timestamp advancing 0 → 5. -/
theorem c2_tick_rerender_iff_witness :
    (∀ s, envAllOK.readFile s = some (contentW s))
    ∧ (∀ s, envAllOK.renderResult s = some (svgOfW s))
    ∧ (∀ s, envAllOK.writeOk s = true)
    ∧ ∀ p ∈ pairsW,
        ((∃ src, Ev.renderCall p.mmdName src
            ∈ (tickPass envAllOK (fun s => some (stW s)) pairsW m0W).1)
          ↔ m0W p.mmdName < stW p.mmdName)
        ∧ (tickPass envAllOK (fun s => some (stW s)) pairsW m0W).2.1 p.mmdName
            = (if m0W p.mmdName < stW p.mmdName then stW p.mmdName else m0W p.mmdName) :=
  ⟨fun _ => rfl, fun _ => rfl, fun _ => rfl,
    c2_tick_rerender_iff envAllOK contentW svgOfW stW pairsW m0W
      (fun _ => rfl) (fun _ => rfl) (fun _ => rfl)⟩

/-- Claim C3, counterexample: in a tick step the WatchState entry is written
BEFORE the render, not after — the concrete trace is
`[setEntry, renderCall, wroteSVG]`, so its first event is a map update that no
earlier render call precedes, refuting "the entry changes only once the
render of that path has completed successfully, never before". -/
theorem c3_counterexample :
    (tickPass envAllOK (fun s => some (stW s)) pairsW m0W).1
      = [Ev.setEntry "a.mmd".data 5,
         Ev.renderCall "a.mmd".data "graph TD".data,
         Ev.wroteSVG "a.svg".data]
    ∧ ¬updatesFollowRenders (tickPass envAllOK (fun s => some (stW s)) pairsW m0W).1 := by
  refine ⟨rfl, fun h => ?_⟩
  obtain ⟨j, src, hj, -⟩ := h 0 "a.mmd".data 5 rfl
  exact Nat.not_lt_zero j hj

/-- Claim C3, amended: in the initial watch pass every WatchState update does
follow a completed render of that path, but in a tick step the entry is
updated immediately BEFORE that path's re-render (the very next event is the
render call); the update never outlives a failed render only because any
render failure terminates the whole process. -/
theorem c3_update_order (env : Env) (content svgOf : Str → Str)
    (st : Str → Nat) (pairs : List renderPair) (m0 m : Str → Nat)
    (hr : ∀ s, env.readFile s = some (content s))
    (hv : ∀ s, env.renderResult s = some (svgOf s))
    (hw : ∀ s, env.writeOk s = true) :
    updatesFollowRenders (initialPass env pairs m0).1
    ∧ ∀ (i : Nat) (p : Str) (t : Nat),
        (tickPass env (fun s => some (st s)) pairs m).1[i]? = some (Ev.setEntry p t) →
        ∃ src, (tickPass env (fun s => some (st s)) pairs m).1[i + 1]?
          = some (Ev.renderCall p src) :=
  ⟨initialPass_updates_follow env pairs m0,
    tickPass_update_then_render hr hv hw st pairs m⟩

/-- Witness for C3's amended statement at the one-pair input set. -/
theorem c3_update_order_witness :
    (∀ s, envAllOK.readFile s = some (contentW s))
    ∧ (∀ s, envAllOK.renderResult s = some (svgOfW s))
    ∧ (∀ s, envAllOK.writeOk s = true)
    ∧ (updatesFollowRenders (initialPass envAllOK pairsW m0W).1
        ∧ ∀ (i : Nat) (p : Str) (t : Nat),
            (tickPass envAllOK (fun s => some (stW s)) pairsW m0W).1[i]?
              = some (Ev.setEntry p t) →
            ∃ src, (tickPass envAllOK (fun s => some (stW s)) pairsW m0W).1[i + 1]?
              = some (Ev.renderCall p src)) :=
  ⟨fun _ => rfl, fun _ => rfl, fun _ => rfl,
    c3_update_order envAllOK contentW svgOfW stW pairsW m0W m0W
      (fun _ => rfl) (fun _ => rfl) (fun _ => rfl)⟩

/-- Claim C8: a successful batch pass issues exactly one render call per pair,
in command-line order (the rendered source paths equal the argument list); and
a watch tick evaluates the pairs in that same fixed order, re-rendering
exactly the modified ones in list order. -/
theorem c8_render_order (env : Env) (content svgOf : Str → Str) (st : Str → Nat)
    (args : List Str) (pairs : List renderPair) (m : Str → Nat)
    (hr : ∀ s, env.readFile s = some (content s))
    (hv : ∀ s, env.renderResult s = some (svgOf s))
    (hw : ∀ s, env.writeOk s = true)
    (hsf : env.startFail = none)
    (hargs : makePairs args = .ok pairs)
    (hnd : (pairs.map renderPair.mmdName).Nodup) :
    renderedPaths (runMain env false args).events = args
    ∧ renderedPaths (tickPass env (fun s => some (st s)) pairs m).1
        = (pairs.filter (fun p => decide (m p.mmdName < st p.mmdName))).map renderPair.mmdName := by
  refine ⟨?_, tickPass_order hr hv hw st pairs m hnd⟩
  have hbo := batchRun_ok hr hv hw pairs
  have hmap := makePairs_map_mmdName hargs
  rcases args with _ | ⟨a, as⟩
  · simp only [makePairs, Except.ok.injEq] at hargs
    subst hargs
    rfl
  · have hnE : newRendererEvents env = ([Ev.sessionStart], none) := by
      unfold newRendererEvents
      rw [hsf]
    rcases hb : batchRun env pairs with ⟨evs2, f2⟩
    rw [hb] at hbo
    have hf2 : f2 = none := hbo.1
    subst hf2
    have key : runMain env false (a :: as)
        = ⟨Ev.sessionStart :: (evs2 ++ [Ev.sessionStop]), 0, none⟩ := by
      simp only [runMain, List.isEmpty_cons, Bool.false_eq_true, if_false, hargs, hnE, hb,
        List.singleton_append, List.cons_append, List.nil_append]
    rw [key]
    have h2 : renderedPaths evs2 = a :: as := by
      have hb2 : renderedPaths evs2 = pairs.map renderPair.mmdName := hbo.2
      rw [hb2, hmap]
    have h3 : renderedPaths (Ev.sessionStart :: (evs2 ++ [Ev.sessionStop]))
        = renderedPaths evs2 := by
      simp [renderedPaths, List.filterMap_cons, List.filterMap_append]
    show renderedPaths (Ev.sessionStart :: (evs2 ++ [Ev.sessionStop])) = a :: as
    rw [h3]
    exact h2

/-- Witness for C8 at the two-file argument list `["a.mmd", "b.mmd"]`. -/
theorem c8_render_order_witness :
    (∀ s, envAllOK.readFile s = some (contentW s))
    ∧ (∀ s, envAllOK.renderResult s = some (svgOfW s))
    ∧ (∀ s, envAllOK.writeOk s = true)
    ∧ envAllOK.startFail = none
    ∧ makePairs ["a.mmd".data, "b.mmd".data]
        = .ok [⟨"a.mmd".data, "a.svg".data⟩, ⟨"b.mmd".data, "b.svg".data⟩]
    ∧ (([⟨"a.mmd".data, "a.svg".data⟩, ⟨"b.mmd".data, "b.svg".data⟩]
        : List renderPair).map renderPair.mmdName).Nodup
    ∧ (renderedPaths (runMain envAllOK false ["a.mmd".data, "b.mmd".data]).events
        = ["a.mmd".data, "b.mmd".data]
      ∧ renderedPaths (tickPass envAllOK (fun s => some (stW s))
          [⟨"a.mmd".data, "a.svg".data⟩, ⟨"b.mmd".data, "b.svg".data⟩] m0W).1
        = (([⟨"a.mmd".data, "a.svg".data⟩, ⟨"b.mmd".data, "b.svg".data⟩]
            : List renderPair).filter
              (fun p => decide (m0W p.mmdName < stW p.mmdName))).map renderPair.mmdName) :=
  ⟨fun _ => rfl, fun _ => rfl, fun _ => rfl, rfl, by decide, by decide,
    c8_render_order envAllOK contentW svgOfW stW ["a.mmd".data, "b.mmd".data]
      [⟨"a.mmd".data, "a.svg".data⟩, ⟨"b.mmd".data, "b.svg".data⟩] m0W
      (fun _ => rfl) (fun _ => rfl) (fun _ => rfl) rfl (by decide) (by decide)⟩

/-- An environment in which every file read fails, used to exhibit a
fatal-error run. -/
def envReadFail : Env := { envAllOK with readFile := fun _ => none }

/-- Claim C1, counterexample: a run on the valid input list `["a.mmd"]` whose
read fails is a fatal-error path, and on it `Stop` is invoked zero times, not
once — `fatalf` terminates the process via `log.Fatalf` before `main` ever
reaches `renderer.Stop()`. -/
theorem c1_counterexample :
    (runMain envReadFail false ["a.mmd".data]).fatalMsg.isSome = true
    ∧ (runMain envReadFail false ["a.mmd".data]).events.count Ev.sessionStop = 0 := by
  constructor <;> rfl

/-- Claim C1, amended: `Stop` is invoked exactly once on every normally
completing run (batch completion and watch-loop interruption, exit status 0),
and zero times on every abnormal exit (usage error or any fatal error). -/
theorem c1_stop_exactly_once_on_success (env : Env) (w : Bool) (args : List Str) :
    (runMain env w args).events.count Ev.sessionStop
      = if (runMain env w args).exitCode = 0 then 1 else 0 := by
  unfold runMain
  by_cases hE : args.isEmpty = true
  · rw [if_pos hE]
    simp
  · rw [if_neg hE]
    rcases hmp : makePairs args with m | pairs
    · simp
    · rcases newRenderer_cases env with ⟨m, hnr⟩ | hnr <;> rw [hnr]
      · simp
      · dsimp only
        have hbody : Ev.sessionStop ∉ (if w then watchRun env pairs else batchRun env pairs).1 := by
          cases w
          · simpa using batchRun_no_stop env pairs
          · simpa using watchRun_no_stop env pairs
        rcases hb : (if w then watchRun env pairs else batchRun env pairs) with ⟨evs2, f2⟩
        rw [hb] at hbody
        rcases f2 with _ | msg
        · simp [List.count_append, List.count_eq_zero.mpr hbody]
        · simp [List.count_append, List.count_eq_zero.mpr hbody]
